import Mathlib

/-!
Verification of the Vela native runtime core (C sources under `src/runtime/src`)
against its natural-language specification.

The development shallowly embeds the four subsystems the claims touch:

* the mark-and-sweep garbage collector with bump allocator (`gc.c`),
* the reactive signal graph (`signals.c`),
* the actor mailbox (bounded circular buffer) and system stop (`actors.c`),
* the boxed key/value object slot table (`runtime.c`).

Machine addresses and `void*` values are modelled as `Nat`/`Int`; `0` plays the
role of `NULL`.  `malloc`/`realloc` are assumed to succeed (their failure
branches only produce early `false`/`NULL` returns that no claim exercises).
-/

set_option autoImplicit false

namespace Vela

/-! ## Garbage collector (`gc.c`)

`sizeof(gc_header_t)`: the header is `{uint32_t flags; size_t size; gc_header_t* next}`;
on the LP64 platforms the runtime targets this is 4 (+4 padding) + 8 + 8 = 24 bytes. -/

def HDR : Nat := 24

def GC_FLAG_MARKED : Nat := 0x01
def GC_FLAG_ROOT : Nat := 0x02
def GC_FLAG_ARRAY : Nat := 0x04
def GC_FLAG_STRING : Nat := 0x08
def GC_FLAG_OBJECT : Nat := 0x10

/-- One `gc_header_t` node of the intrusive object list.  `addr` is the address
of the header inside the arena; the payload starts at `addr + HDR`. -/
structure GCObj where
  addr : Nat
  flags : Nat
  size : Nat
deriving Repr, DecidableEq

/-- Embedding: `gc_heap_t`.  The intrusive list `gc_heap->objects` is the Lean list
`objects`, head first (most recently allocated first).  `root_capacity` is not
modelled: the root array growth (`realloc`) is assumed to succeed. -/
structure GCHeap where
  heap_start : Nat
  heap_size : Nat
  free_ptr : Nat
  objects : List GCObj
  object_count : Nat
  roots : List Nat
  gc_running : Bool
deriving Repr, DecidableEq

def GCHeap.heap_end (h : GCHeap) : Nat := h.heap_start + h.heap_size

/-- Embedding: `gc_stats_t` (the static global `gc_stats`). -/
structure GCStats where
  heap_size : Nat
  used_bytes : Nat
  free_bytes : Nat
  object_count : Nat
  collection_count : Nat
  total_allocated : Nat
  total_collected : Nat
deriving Repr, DecidableEq

/-- The global state of `gc.c`: the static `gc_heap` pointer (`none` = `NULL`)
and the static `gc_stats` struct. -/
structure GCState where
  heap : Option GCHeap
  stats : GCStats
deriving Repr, DecidableEq

def GCState.initial : GCState :=
  { heap := none,
    stats := { heap_size := 0, used_bytes := 0, free_bytes := 0, object_count := 0,
               collection_count := 0, total_allocated := 0, total_collected := 0 } }

/-- Embedding: `gc_init(heap_size)`.  `base` is the (nonzero) address `malloc` returned for
the arena.  Note the C code assigns only four fields of the static `gc_stats`;
the cumulative counters keep their previous values. -/
def gc_init (st : GCState) (base heap_size : Nat) : GCState × Bool :=
  match st.heap with
  | some _ => (st, false)
  | none =>
    let h : GCHeap :=
      { heap_start := base, heap_size := heap_size, free_ptr := base,
        objects := [], object_count := 0, roots := [], gc_running := false }
    let s : GCStats :=
      { st.stats with heap_size := heap_size, used_bytes := 0,
                      free_bytes := heap_size, collection_count := 0 }
    ({ heap := some h, stats := s }, true)

/-- Embedding: `gc_is_heap_ptr(ptr)`: `NULL` check plus the bounds check
`ptr >= heap_start && ptr < heap_end`. -/
def gc_is_heap_ptr (st : GCState) (ptr : Nat) : Bool :=
  match st.heap with
  | none => false
  | some h => ptr != 0 && decide (h.heap_start ≤ ptr) && decide (ptr < h.heap_end)

def GCObj.marked (o : GCObj) : Bool := o.flags &&& GC_FLAG_MARKED != 0

def GCObj.setMarked (o : GCObj) : GCObj := { o with flags := o.flags ||| GC_FLAG_MARKED }

/-- Embedding: `flags &= ~GC_FLAG_MARKED` on a `uint32_t`. -/
def GCObj.clearMarked (o : GCObj) : GCObj := { o with flags := o.flags &&& 0xFFFFFFFE }

/-- Embedding: `gc_mark_object(ptr)`: skip `NULL` and non-heap pointers, then set
`GC_FLAG_MARKED` on the header at `ptr - sizeof(gc_header_t)`.  The embedding
marks the tracked object whose header sits at that address (the flag is a byte
of that header; all occurrences in the intrusive list at one address are the
same memory).  When no tracked object has its header there, the C code would
mutate raw arena bytes; the claims only ever pass payload pointers of tracked
objects, where that branch cannot arise, and the embedding leaves the list
unchanged. -/
def gc_mark_object (h : GCHeap) (ptr : Nat) : GCHeap :=
  if ptr = 0 ∨ ¬ (h.heap_start ≤ ptr ∧ ptr < h.heap_end) then h
  else { h with objects := h.objects.map (fun o => if o.addr + HDR = ptr then o.setMarked else o) }

/-- Embedding: `gc_mark()`: clear `GC_FLAG_MARKED` on every tracked object, then mark from
every non-`NULL` root. -/
def gc_mark (h : GCHeap) : GCHeap :=
  let h0 := { h with objects := h.objects.map GCObj.clearMarked }
  h0.roots.foldl (fun acc r => if r ≠ 0 then gc_mark_object acc r else acc) h0

/-- Embedding: `gc_sweep()`: unlink every unmarked node, decrement `object_count` per
node, accumulate `header->size` into `collected_bytes`, and add that to
`gc_stats.total_collected`.  The bump memory itself is untouched. -/
def gc_sweep (h : GCHeap) (stats : GCStats) : GCHeap × GCStats :=
  let removed := h.objects.filter (fun o => !o.marked)
  let kept := h.objects.filter (fun o => o.marked)
  let collected := (removed.map GCObj.size).sum
  ({ h with objects := kept, object_count := h.object_count - removed.length },
   { stats with total_collected := stats.total_collected + collected })

/-- Embedding: `gc_collect()`: no-op when uninitialized or when a collection is already
running; otherwise mark, sweep, and bump `collection_count`. -/
def gc_collect (st : GCState) : GCState :=
  match st.heap with
  | none => st
  | some h =>
    if h.gc_running then st
    else
      let h1 := gc_mark { h with gc_running := true }
      let (h2, stats) := gc_sweep h1 st.stats
      { heap := some { h2 with gc_running := false },
        stats := { stats with collection_count := stats.collection_count + 1 } }

/-- The bump-and-link tail of `gc_alloc` (the code after the capacity checks):
place the header at `free_ptr`, advance the cursor, push the header onto the
intrusive list, update the statistics, and return the payload pointer. -/
def gc_alloc_bump (h : GCHeap) (stats : GCStats) (size flags : Nat) : GCState × Option Nat :=
  let total := HDR + size
  let header : GCObj := { addr := h.free_ptr, flags := flags, size := size }
  let h1 : GCHeap :=
    { h with free_ptr := h.free_ptr + total,
             objects := header :: h.objects,
             object_count := h.object_count + 1 }
  let s1 : GCStats :=
    { stats with used_bytes := stats.used_bytes + total,
                 free_bytes := stats.free_bytes - total,
                 total_allocated := stats.total_allocated + size }
  ({ heap := some h1, stats := s1 }, some (header.addr + HDR))

/-- Embedding: `gc_alloc(size, flags)`: if the bump cursor plus header+payload would pass
the arena end, run one synchronous `gc_collect()` and re-check; if still
insufficient return `NULL`; otherwise bump-allocate. -/
def gc_alloc (st : GCState) (size flags : Nat) : GCState × Option Nat :=
  match st.heap with
  | none => (st, none)
  | some h =>
    let total := HDR + size
    if h.free_ptr + total > h.heap_end then
      let st1 := gc_collect st
      match st1.heap with
      | none => (st1, none)
      | some h1 =>
        if h1.free_ptr + total > h1.heap_end then (st1, none)
        else gc_alloc_bump h1 st1.stats size flags
    else gc_alloc_bump h st.stats size flags

/-- Embedding: `gc_add_root(ptr)`: `NULL`/uninitialized checks, dedup-on-insert, append
(array growth assumed to succeed). -/
def gc_add_root (st : GCState) (ptr : Nat) : GCState × Bool :=
  match st.heap with
  | none => (st, false)
  | some h =>
    if ptr = 0 then (st, false)
    else if ptr ∈ h.roots then (st, true)
    else ({ st with heap := some { h with roots := h.roots ++ [ptr] } }, true)

/-- Embedding: `gc_remove_root(ptr)`: remove the first occurrence by left shift. -/
def gc_remove_root (st : GCState) (ptr : Nat) : GCState :=
  match st.heap with
  | none => st
  | some h =>
    if ptr = 0 then st
    else { st with heap := some { h with roots := h.roots.erase ptr } }

/-- GC states reachable from program start by `gc_init` followed by any
sequence of `gc_alloc`, `gc_collect`, `gc_add_root`, `gc_remove_root`. -/
inductive GCReach : GCState → Prop
  | init (base heap_size : Nat) : GCReach (gc_init GCState.initial base heap_size).1
  | alloc {st : GCState} (size flags : Nat) : GCReach st → GCReach (gc_alloc st size flags).1
  | collect {st : GCState} : GCReach st → GCReach (gc_collect st)
  | addRoot {st : GCState} (ptr : Nat) : GCReach st → GCReach (gc_add_root st ptr).1
  | removeRoot {st : GCState} (ptr : Nat) : GCReach st → GCReach (gc_remove_root st ptr)

/-- Observer: the intrusive object list (empty when uninitialized). -/
def gcObjects (st : GCState) : List GCObj :=
  match st.heap with
  | none => []
  | some h => h.objects

/-- Observer: the root set (empty when uninitialized). -/
def gcRoots (st : GCState) : List Nat :=
  match st.heap with
  | none => []
  | some h => h.roots

/-- A demonstration state: 100-byte arena at address 1000, two allocations
(payloads at 1024 and 1056), the first payload registered as a root. -/
def gcDemoState : GCState :=
  (gc_add_root (gc_alloc (gc_alloc (gc_init GCState.initial 1000 100).1 8 0).1 4 0).1 1024).1

/-- The heap component of `gcDemoState`, spelled out. -/
def gcDemoHeap : GCHeap :=
  { heap_start := 1000, heap_size := 100, free_ptr := 1060,
    objects := [{ addr := 1032, flags := 0, size := 4 }, { addr := 1000, flags := 0, size := 8 }],
    object_count := 2, roots := [1024], gc_running := false }

/-- The boundary state: an arena of exactly `sizeof(gc_header_t)` bytes, one
zero-size allocation whose payload pointer (1024) equals `heap_end`, that
payload registered as a root. -/
def gcEdgeState : GCState :=
  (gc_add_root (gc_alloc (gc_init GCState.initial 1000 HDR).1 0 0).1 1024).1

/-- The statistics/bump-cursor accounting invariant maintained by the GC:
`used_bytes + free_bytes` equals the arena size, and on an initialized heap
`used_bytes` is exactly the bump progress (`free_ptr - heap_start`), expressed
additively as `free_ptr + free_bytes = heap_end`. -/
def StatsInv (st : GCState) : Prop :=
  st.stats.used_bytes + st.stats.free_bytes = st.stats.heap_size ∧
  ∀ h, st.heap = some h →
    st.stats.heap_size = h.heap_size ∧
    h.heap_start ≤ h.free_ptr ∧
    h.free_ptr + st.stats.free_bytes = h.heap_end

/-- Validity of a root pointer for the mark phase of heap `h`: some root entry
survives the `NULL` check and `gc_is_heap_ptr` and points at `o`'s payload. -/
def rootHits (h : GCHeap) (o : GCObj) : Prop :=
  ∃ r ∈ h.roots, r ≠ 0 ∧ h.heap_start ≤ r ∧ r < h.heap_end ∧ o.addr + HDR = r

instance (h : GCHeap) (o : GCObj) : Decidable (rootHits h o) := by
  unfold rootHits; infer_instance

/-- The object list right after the mark phase (clear all marks, then re-mark
the objects some valid root points at). -/
def gc_marked_objects (h : GCHeap) : List GCObj :=
  h.objects.map (fun o => if rootHits h o then o.clearMarked.setMarked else o.clearMarked)

/-! ## Reactive signals (`signals.c`)

Signals are heap objects identified by their address, modelled as a nonzero
`Nat` id (0 plays the role of `NULL`).  Signal values (`void*`) are modelled as
`Int`.  A compute function (`vela_compute_fn`) is a C thunk that reads its
source signals through `signal_get_value`; for the non-computed sources the
claims exercise, that read returns the raw `value` field, so a compute function
is embedded as a pure function of the raw-value map `Nat → Int`.
`vela_signal_t`/`vela_computed_t` are merged into one node record
(`vela_computed_t` extends the signal struct with `compute_fn` and
`needs_recompute`; the union member `data.raw_value` merely aliases `value`
and is not modelled separately). -/

/-- A compute function: reads current raw signal values, returns the value. -/
def CFun : Type := (Nat → Int) → Int

/-- One signal node (`vela_signal_t`, with the `vela_computed_t` extension). -/
structure SigNode where
  value : Int
  dependents : List Nat
  is_computed : Bool
  compute_fn : Option CFun
  needs_recompute : Bool

/-- The global `signals_state_t` plus the heap cells of all created signals.
`next_id` models the allocator handing out fresh (nonzero) addresses.
Capacities (`signal_capacity`, `dependent_capacity`) are not modelled: array
growth via `realloc` is assumed to succeed. -/
structure SigState where
  store : List (Nat × SigNode)
  all_signals : List Nat
  dirty_signals : List Nat
  propagation_running : Bool
  next_id : Nat

/-- Fresh signals system right after `signals_init()`. -/
def SigState.init : SigState :=
  { store := [], all_signals := [], dirty_signals := [], propagation_running := false,
    next_id := 1 }

/-- Dereference a signal pointer (first store entry with that address). -/
def findSig : List (Nat × SigNode) → Nat → Option SigNode
  | [], _ => none
  | (i, n) :: rest, id => if i = id then some n else findSig rest id

/-- Write through a signal pointer. -/
def updateSig (st : SigState) (id : Nat) (f : SigNode → SigNode) : SigState :=
  { st with store := st.store.map (fun p => if p.1 = id then (p.1, f p.2) else p) }

/-- The raw-value read a compute function performs on its source signals
(`signal_get_value` on a non-computed signal returns `signal->value`). -/
def rawRead (st : SigState) : Nat → Int := fun id =>
  match findSig st.store id with
  | some n => n.value
  | none => 0

/-- Embedding: `signal_create(initial_value)`: gc-allocate a node (allocation assumed to
succeed), zero it, set the value, register it globally
(`signals_register_signal` appends to `all_signals`). -/
def signal_create (st : SigState) (v : Int) : SigState × Nat :=
  let id := st.next_id
  let node : SigNode :=
    { value := v, dependents := [], is_computed := false, compute_fn := none,
      needs_recompute := false }
  ({ st with store := st.store ++ [(id, node)],
             all_signals := st.all_signals ++ [id],
             next_id := id + 1 }, id)

/-- Embedding: `computed_recompute(computed)`: run the compute function against the
current state, store the result, clear `needs_recompute`. -/
def computed_recompute (st : SigState) (id : Nat) : SigState :=
  match findSig st.store id with
  | none => st
  | some n =>
    match n.compute_fn with
    | none => st
    | some f =>
      let newv := f (rawRead st)
      updateSig st id (fun m => { m with value := newv, needs_recompute := false })

/-- Embedding: `computed_create(compute_fn)`: allocate (zeroed), flag as computed with
`needs_recompute = true`, register globally, then run the initial
computation. -/
def computed_create (st : SigState) (f : CFun) : SigState × Nat :=
  let id := st.next_id
  let node : SigNode :=
    { value := 0, dependents := [], is_computed := true, compute_fn := some f,
      needs_recompute := true }
  let st1 : SigState :=
    { st with store := st.store ++ [(id, node)],
              all_signals := st.all_signals ++ [id],
              next_id := id + 1 }
  (computed_recompute st1 id, id)

/-- Embedding: `signal_get_value(signal)`: `NULL`/dangling reads return `NULL`; a computed
signal flagged `needs_recompute` is lazily recomputed first. -/
def signal_get_value (st : SigState) (id : Nat) : SigState × Int :=
  match findSig st.store id with
  | none => (st, 0)
  | some n =>
    if n.is_computed && n.needs_recompute then
      let st1 := computed_recompute st id
      (st1, rawRead st1 id)
    else (st, n.value)

/-- Embedding: `signal_add_dependent(signal, dependent)`: `NULL` checks, dedup-on-insert,
append (array growth assumed to succeed).  Dereferencing an unallocated signal
pointer would be undefined behavior in C; the embedding returns failure. -/
def signal_add_dependent (st : SigState) (s d : Nat) : SigState × Bool :=
  if s = 0 || d = 0 then (st, false)
  else
    match findSig st.store s with
    | none => (st, false)
    | some n =>
      if d ∈ n.dependents then (st, true)
      else (updateSig st s (fun m => { m with dependents := m.dependents ++ [d] }), true)

/-- The body of `signal_mark_dirty`, with explicit fuel for the DFS recursion
into dependents.  The C recursion terminates because a signal already on the
dirty list is not revisited; `markDirtyFuel` is run with fuel exceeding the
longest possible chain of fresh signals, so the fuel never runs out on the
states considered. -/
def markDirtyFuel : Nat → SigState → Nat → SigState
  | 0, st, _ => st
  | fuel + 1, st, id =>
    if id ∈ st.dirty_signals then st
    else
      let st1 := { st with dirty_signals := st.dirty_signals ++ [id] }
      let deps := match findSig st1.store id with
                  | some n => n.dependents
                  | none => []
      deps.foldl (fun acc d =>
        let acc1 :=
          match findSig acc.store d with
          | some m =>
            if m.is_computed then
              updateSig acc d (fun o => { o with needs_recompute := true })
            else acc
          | none => acc
        markDirtyFuel fuel acc1 d) st1

/-- Embedding: `signal_mark_dirty(signal)`: dedup-insert into the dirty list, flag every
computed dependent as needing recompute, recurse into dependents. -/
def signal_mark_dirty (st : SigState) (id : Nat) : SigState :=
  markDirtyFuel (st.store.length + 1) st id

/-- Embedding: `signals_propagate_changes()`: reentrancy-guarded; one pass over the dirty
list in registration order recomputing every still-dirty computed node, then
the dirty list is cleared.  (The loop body never appends to the dirty list, so
iterating the entry snapshot is faithful to the C loop re-reading
`dirty_count`.) -/
def signals_propagate_changes (st : SigState) : SigState :=
  if st.propagation_running then st
  else
    let st1 := { st with propagation_running := true }
    let st2 := st1.dirty_signals.foldl (fun acc id =>
      match findSig acc.store id with
      | some n =>
        if n.is_computed && n.needs_recompute then computed_recompute acc id else acc
      | none => acc) st1
    { st2 with dirty_signals := [], propagation_running := false }

/-- Embedding: `signal_set_value(signal, value)`: a `void` function; `NULL` signals and
computed signals are silently ignored (early `return` with no error report).
Otherwise store the value, mark dirty, and synchronously propagate. -/
def signal_set_value (st : SigState) (id : Nat) (v : Int) : SigState :=
  match findSig st.store id with
  | none => st
  | some n =>
    if n.is_computed then st
    else
      let st1 := updateSig st id (fun m => { m with value := v })
      signals_propagate_changes (signal_mark_dirty st1 id)

/-- The C3 scenario, step by step: `s := signal_create(1)`,
`c := computed_create(() => signal_get_value(s) * 2)`, `add_dependent(s, c)`. -/
def sigDemo0 : SigState × Nat := signal_create SigState.init 1

def sigDemoS : Nat := sigDemo0.2

def sigDemo1 : SigState × Nat := computed_create sigDemo0.1 (fun read => read sigDemoS * 2)

def sigDemoC : Nat := sigDemo1.2

/-- State with `c` registered as a dependent of `s`. -/
def sigDemo2 : SigState := (signal_add_dependent sigDemo1.1 sigDemoS sigDemoC).1

/-- State after `signal_set_value(s, 5)` (push path has run). -/
def sigDemo3 : SigState := signal_set_value sigDemo2 sigDemoS 5

/-- State after an additional `signal_mark_dirty(s)` with no propagation:
only the pull path can recompute `c` from here. -/
def sigDemo4 : SigState := signal_mark_dirty sigDemo3 sigDemoS

/-! ## Actor mailboxes (`actors.c`)

`message_queue_t` is a bounded circular buffer guarded by one mutex and two
condition variables.  The sequential embedding passes the global
`actor_system->running` flag explicitly and renders a `pthread_cond_wait` with
no possible signaller as the absent result (`none`): the caller is blocked and
the sequential execution cannot continue.  Messages (`vela_message_t*`) are an
opaque type parameter. -/

/-- Embedding: `message_queue_t` (mutex and condition variables carry no data). -/
structure MsgQueue (α : Type) where
  messages : List (Option α)
  count : Nat
  capacity : Nat
  head : Nat
  tail : Nat
deriving Repr, DecidableEq

variable {α : Type}

/-- Embedding: `message_queue_create(capacity)` (allocation assumed to succeed; the
backing array is uninitialized in C, modelled as empty slots). -/
def message_queue_create (α : Type) (capacity : Nat) : MsgQueue α :=
  { messages := List.replicate capacity none, count := 0, capacity := capacity,
    head := 0, tail := 0 }

def message_queue_empty (q : MsgQueue α) : Bool := q.count == 0

def message_queue_full (q : MsgQueue α) : Bool := decide (q.count ≥ q.capacity)

/-- Embedding: `message_queue_put(queue, message)`.  `none`: the caller entered
`pthread_cond_wait(&not_full)` (queue full while the system runs) and, in a
sequential run with no consumer, never resumes.  Otherwise `some (q', flag)`:
the call returned `flag`, leaving the queue as `q'`. -/
def message_queue_put (running : Bool) (q : MsgQueue α) (m : α) :
    Option (MsgQueue α × Bool) :=
  if message_queue_full q && running then none
  else if !running then some (q, false)
  else some ({ q with messages := q.messages.set q.tail (some m),
                      tail := (q.tail + 1) % q.capacity,
                      count := q.count + 1 }, true)

/-- Embedding: `message_queue_get(queue, &message)`.  `none`: blocked on
`not_empty`; `some (q', none)`: returned `false`; `some (q', some m)`:
dequeued `m`. -/
def message_queue_get (running : Bool) (q : MsgQueue α) :
    Option (MsgQueue α × Option α) :=
  if message_queue_empty q && running then none
  else if !running || message_queue_empty q then some (q, none)
  else some ({ q with head := (q.head + 1) % q.capacity, count := q.count - 1 },
             q.messages.getD q.head none)

/-- Embedding: `actor_schedule(actor)` acting on the actor's mailbox: a stopped actor
returns `false`; otherwise pop one message and, on success, invoke the behavior
with it (the delivered message is returned as `some m`). -/
def actor_schedule (sysRunning actorRunning : Bool) (q : MsgQueue α) :
    Option (MsgQueue α × Option α) :=
  if !actorRunning then some (q, none)
  else
    match message_queue_get sysRunning q with
    | none => none
    | some (q1, none) => some (q1, none)
    | some (q1, some m) => some (q1, some m)

/-- Send the messages in order with the system running; `none` as soon as a
send blocks or fails. -/
def putAll : MsgQueue α → List α → Option (MsgQueue α)
  | q, [] => some q
  | q, m :: ms =>
    match message_queue_put true q m with
    | some (q1, true) => putAll q1 ms
    | _ => none

/-- Schedule the actor `n` times, collecting the messages delivered to its
behavior in order; `none` if any step blocks or delivers nothing. -/
def drainAll : MsgQueue α → Nat → Option (MsgQueue α × List α)
  | q, 0 => some (q, [])
  | q, n + 1 =>
    match actor_schedule true true q with
    | some (q1, some m) => (drainAll q1 n).map (fun r => (r.1, m :: r.2))
    | _ => none

/-- Logical slot `i` of the circular buffer (counting from `head`). -/
def MsgQueue.slot (q : MsgQueue α) (i : Nat) : Option α :=
  q.messages.getD ((q.head + i) % q.capacity) none

/-- Abstraction: the queue contents from `head`, `count` entries. -/
def MsgQueue.toList (q : MsgQueue α) : List (Option α) :=
  (List.range q.count).map q.slot

/-- Structural invariant of the circular buffer. -/
def MsgQueue.WF (q : MsgQueue α) : Prop :=
  q.messages.length = q.capacity ∧ q.count ≤ q.capacity ∧ q.head < q.capacity ∧
  q.tail = (q.head + q.count) % q.capacity

/-- The pieces of actor-system state relevant to shutdown of blocked senders:
the `running` flag and the identities of the threads currently suspended in
`pthread_cond_wait(&queue->not_full)` inside `message_queue_put`. -/
structure ActorSys (α : Type) where
  running : Bool
  blocked_senders : List Nat
  queue : MsgQueue α
deriving Repr, DecidableEq

/-- Embedding: `actors_stop()` as it affects mailbox waiters: it clears `running` and
joins the scheduler/worker threads.  It performs no
`pthread_cond_signal`/`pthread_cond_broadcast` on any mailbox condition
variable, so the blocked-sender set and the queue are untouched. -/
def actors_stop (s : ActorSys α) : ActorSys α :=
  if !s.running then s else { s with running := false }

/-! ## Boxed key/value objects (`runtime.c`)

`vela_object_create` allocates a zeroed block that `vela_object_set` and
`vela_object_get` scan as an array `entries` of 256 `void*` slots in steps of
two: `entries[2*i]` holds the key pointer (`NULL` = empty slot) and
`entries[2*i + 1]` the value, i.e. 128 key/value pairs.  Keys are C strings
compared by content (`strcmp`); a key's contents are modelled as an abstract
`Nat` (the `key == NULL` argument guard is not modelled: keys stand for
non-null strings).  Values (`void*`) are modelled as `Int`. -/

/-- The 256 `void*` slots scanned by `vela_object_set`/`vela_object_get`
(`size_t capacity = 256` in the source). -/
def OBJ_ENTRY_SLOTS : Nat := 256

/-- The number of key/value pairs those slots hold. -/
def OBJ_PAIR_CAPACITY : Nat := OBJ_ENTRY_SLOTS / 2

/-- A boxed object: its pair slots in layout order. -/
structure VObj where
  pairs : List (Option (Nat × Int))
deriving Repr, DecidableEq

/-- Embedding: `vela_object_create()`: zeroed block = all key slots `NULL`. -/
def vela_object_create : VObj :=
  { pairs := List.replicate OBJ_PAIR_CAPACITY none }

/-- The scan loop of `vela_object_set`: first empty slot stores the pair,
a matching existing key updates the value in place, running past the last
slot reports failure (`return false` after the loop). -/
def setPairs : List (Option (Nat × Int)) → Nat → Int → Option (List (Option (Nat × Int)))
  | [], _, _ => none
  | none :: rest, k, v => some (some (k, v) :: rest)
  | some (k0, v0) :: rest, k, v =>
    if k0 = k then some (some (k0, v) :: rest)
    else (setPairs rest k v).map (fun r => some (k0, v0) :: r)

def vela_object_set (o : VObj) (k : Nat) (v : Int) : VObj × Bool :=
  match setPairs o.pairs k v with
  | some e => (⟨e⟩, true)
  | none => (o, false)

/-- The scan loop of `vela_object_get`: stop at the first empty key slot
(`break`), return the value stored under a matching key, else `NULL`. -/
def getPairs : List (Option (Nat × Int)) → Nat → Option Int
  | [], _ => none
  | none :: _, _ => none
  | some (k0, v0) :: rest, k => if k0 = k then some v0 else getPairs rest k

def vela_object_get (o : VObj) (k : Nat) : Option Int :=
  getPairs o.pairs k

/-- Test driver: apply `vela_object_set` for each pair in order; the flag is
true iff every set succeeded. -/
def setMany : VObj → List (Nat × Int) → VObj × Bool
  | o, [] => (o, true)
  | o, (k, v) :: kvs =>
    let r := vela_object_set o k v
    let rest := setMany r.1 kvs
    (rest.1, r.2 && rest.2)

/-- Association-list lookup (first entry with the key). -/
def lookupA : List (Nat × Int) → Nat → Option Int
  | [], _ => none
  | (k0, v0) :: rest, k => if k0 = k then some v0 else lookupA rest k

/-- Association-list in-place update of the first entry with the key. -/
def updA : List (Nat × Int) → Nat → Int → List (Nat × Int)
  | [], _, _ => []
  | (k0, v0) :: rest, k, v =>
    if k0 = k then (k0, v) :: rest else (k0, v0) :: updA rest k v

/-! ### Flag bookkeeping lemmas -/

theorem GCObj.addr_setMarked (o : GCObj) : o.setMarked.addr = o.addr := rfl

theorem GCObj.size_setMarked (o : GCObj) : o.setMarked.size = o.size := rfl

theorem GCObj.addr_clearMarked (o : GCObj) : o.clearMarked.addr = o.addr := rfl

theorem GCObj.size_clearMarked (o : GCObj) : o.clearMarked.size = o.size := rfl

theorem GCObj.marked_setMarked (o : GCObj) : o.setMarked.marked = true := by
  simp [GCObj.marked, GCObj.setMarked, GC_FLAG_MARKED, Nat.or_and_distrib_right, Nat.and_self]

theorem GCObj.marked_clearMarked (o : GCObj) : o.clearMarked.marked = false := by
  simp [GCObj.marked, GCObj.clearMarked, GC_FLAG_MARKED, Nat.and_assoc]

theorem GCObj.setMarked_setMarked (o : GCObj) : o.setMarked.setMarked = o.setMarked := by
  simp [GCObj.setMarked, Nat.or_assoc]

/-! ### Characterization of the mark phase -/

/-- Lemma: `gc_mark_object` as a whole-state equation: it marks exactly the tracked
objects whose payload address equals a valid heap pointer `r`. -/
theorem gc_mark_object_eq (h : GCHeap) (r : Nat) :
    gc_mark_object h r =
      { h with objects := h.objects.map (fun o =>
          if r ≠ 0 ∧ h.heap_start ≤ r ∧ r < h.heap_end ∧ o.addr + HDR = r
          then o.setMarked else o) } := by
  unfold gc_mark_object
  by_cases h0 : r = 0 ∨ ¬ (h.heap_start ≤ r ∧ r < h.heap_end)
  · rw [if_pos h0]
    have hid : ∀ o : GCObj,
        (if r ≠ 0 ∧ h.heap_start ≤ r ∧ r < h.heap_end ∧ o.addr + HDR = r
         then o.setMarked else o) = o := by
      intro o; rw [if_neg]; tauto
    simp [hid]
  · push_neg at h0
    rw [if_neg (by tauto)]
    congr 1
    apply List.map_congr_left
    intro o _
    by_cases hm : o.addr + HDR = r
    · rw [if_pos hm, if_pos ⟨h0.1, h0.2.1, h0.2.2, hm⟩]
    · rw [if_neg hm, if_neg (by tauto)]

/-- The root-marking fold of `gc_mark`, characterized over an arbitrary root
list: an object ends up additionally marked exactly when some valid root in the
list points at its payload. -/
theorem gc_mark_fold (rs : List Nat) (h : GCHeap) :
    (rs.foldl (fun acc r => if r ≠ 0 then gc_mark_object acc r else acc) h) =
      { h with objects := h.objects.map (fun o =>
          if ∃ r ∈ rs, r ≠ 0 ∧ h.heap_start ≤ r ∧ r < h.heap_end ∧ o.addr + HDR = r
          then o.setMarked else o) } := by
  induction rs generalizing h with
  | nil =>
    have hid : ∀ o : GCObj,
        (if ∃ r ∈ ([] : List Nat), r ≠ 0 ∧ h.heap_start ≤ r ∧ r < h.heap_end ∧ o.addr + HDR = r
         then o.setMarked else o) = o := by
      intro o; rw [if_neg]; simp
    simp [hid]
  | cons r rs ih =>
    simp only [List.foldl_cons]
    have step : (if r ≠ 0 then gc_mark_object h r else h) =
        { h with objects := h.objects.map (fun o =>
            if r ≠ 0 ∧ h.heap_start ≤ r ∧ r < h.heap_end ∧ o.addr + HDR = r
            then o.setMarked else o) } := by
      by_cases hr : r = 0
      · rw [if_neg (by simpa using hr)]
        have hid : ∀ o : GCObj,
            (if r ≠ 0 ∧ h.heap_start ≤ r ∧ r < h.heap_end ∧ o.addr + HDR = r
             then o.setMarked else o) = o := by
          intro o; rw [if_neg]; tauto
        simp [hid]
      · rw [if_pos hr, gc_mark_object_eq]
    rw [step, ih]
    simp only [GCHeap.heap_end]
    congr 1
    rw [List.map_map]
    apply List.map_congr_left
    intro o _
    simp only [Function.comp_apply]
    by_cases h1 : r ≠ 0 ∧ h.heap_start ≤ r ∧ r < h.heap_start + h.heap_size ∧ o.addr + HDR = r
    · rw [if_pos h1]
      have hcomb : ∃ x ∈ r :: rs,
          x ≠ 0 ∧ h.heap_start ≤ x ∧ x < h.heap_start + h.heap_size ∧ o.addr + HDR = x :=
        ⟨r, List.mem_cons_self r rs, h1⟩
      rw [if_pos hcomb]
      by_cases h2 : ∃ x ∈ rs, x ≠ 0 ∧ h.heap_start ≤ x ∧ x < h.heap_start + h.heap_size ∧
          o.setMarked.addr + HDR = x
      · rw [if_pos h2, GCObj.setMarked_setMarked]
      · rw [if_neg h2]
    · rw [if_neg h1]
      by_cases h2 : ∃ x ∈ rs, x ≠ 0 ∧ h.heap_start ≤ x ∧ x < h.heap_start + h.heap_size ∧
          o.addr + HDR = x
      · rw [if_pos h2]
        rw [if_pos (by obtain ⟨x, hx, hp⟩ := h2; exact ⟨x, List.mem_cons_of_mem r hx, hp⟩)]
      · rw [if_neg h2, if_neg (by
          intro hc
          obtain ⟨x, hx, hp⟩ := hc
          rcases List.mem_cons.mp hx with hx | hx
          · exact h1 (hx ▸ hp)
          · exact h2 ⟨x, hx, hp⟩)]

theorem rootHits_running (h : GCHeap) (b : Bool) (o : GCObj) :
    rootHits { h with gc_running := b } o ↔ rootHits h o := Iff.rfl

/-- Lemma: `gc_mark` as a whole-state equation: every object gets its mark cleared,
and is then re-marked exactly when a valid root points at its payload. -/
theorem gc_mark_eq (h : GCHeap) :
    gc_mark h = { h with objects := gc_marked_objects h } := by
  unfold gc_mark gc_marked_objects
  rw [gc_mark_fold]
  simp only [List.map_map]
  congr 1

/-! ### `gc_collect` case analysis -/

theorem gc_collect_none {st : GCState} (hh : st.heap = none) : gc_collect st = st := by
  unfold gc_collect; rw [hh]

theorem gc_collect_running {st : GCState} {h : GCHeap} (hh : st.heap = some h)
    (hr : h.gc_running = true) : gc_collect st = st := by
  unfold gc_collect; rw [hh]; simp [hr]

/-- Lemma: `gc_collect` on an initialized, non-reentrant state: mark, filter out the
unmarked nodes, account the collected bytes, bump the collection counter.  The
bump cursor, the heap bounds and the used/free statistics are untouched. -/
theorem gc_collect_some {st : GCState} {h : GCHeap} (hh : st.heap = some h)
    (hr : h.gc_running = false) :
    gc_collect st =
      { heap := some { h with
          objects := (gc_marked_objects h).filter GCObj.marked,
          object_count :=
            h.object_count - ((gc_marked_objects h).filter (fun o => !o.marked)).length,
          gc_running := false },
        stats := { st.stats with
          total_collected := st.stats.total_collected +
            (((gc_marked_objects h).filter (fun o => !o.marked)).map GCObj.size).sum,
          collection_count := st.stats.collection_count + 1 } } := by
  obtain ⟨sheap, sstats⟩ := st
  simp only at hh
  subst hh
  unfold gc_collect
  dsimp only
  rw [hr]
  simp only [Bool.false_eq_true, if_false]
  rw [gc_mark_eq]
  unfold gc_sweep
  rfl

theorem gc_collect_stats_preserved (st : GCState) :
    (gc_collect st).stats.used_bytes = st.stats.used_bytes ∧
    (gc_collect st).stats.free_bytes = st.stats.free_bytes ∧
    (gc_collect st).stats.heap_size = st.stats.heap_size := by
  cases hh : st.heap with
  | none => rw [gc_collect_none hh]; exact ⟨rfl, rfl, rfl⟩
  | some h =>
    cases hr : h.gc_running with
    | false => rw [gc_collect_some hh hr]; exact ⟨rfl, rfl, rfl⟩
    | true => rw [gc_collect_running hh hr]; exact ⟨rfl, rfl, rfl⟩

theorem gc_collect_heap_preserved {st : GCState} {h : GCHeap} (hh : st.heap = some h)
    (hr : h.gc_running = false) :
    ∃ h2, (gc_collect st).heap = some h2 ∧ h2.heap_start = h.heap_start ∧
      h2.heap_size = h.heap_size ∧ h2.free_ptr = h.free_ptr ∧ h2.gc_running = false := by
  rw [gc_collect_some hh hr]
  exact ⟨_, rfl, rfl, rfl, rfl, rfl⟩

/-- C1 (amended): mark-sweep correctness for root-only reachability.  For
every initialized heap state not currently collecting, if every root entry is
the payload pointer of a tracked object and every tracked object's payload
pointer lies strictly inside the heap bounds, then after `gc_collect()` every
object whose payload pointer is a root is still in the intrusive live list,
and every object whose payload pointer is not a root has been removed. -/
theorem gc_collect_mark_sweep_correct (st : GCState) (h : GCHeap)
    (hheap : st.heap = some h) (hrun : h.gc_running = false)
    (hroots : ∀ r ∈ h.roots, ∃ o, o ∈ h.objects ∧ r = o.addr + HDR)
    (hbounds : ∀ o ∈ h.objects, h.heap_start ≤ o.addr ∧ o.addr + HDR < h.heap_end) :
    ∃ h2, (gc_collect st).heap = some h2 ∧
      (∀ o ∈ h.objects, o.addr + HDR ∈ h.roots →
        ∃ o2, o2 ∈ h2.objects ∧ o2.addr = o.addr ∧ o2.size = o.size) ∧
      (∀ o ∈ h.objects, o.addr + HDR ∉ h.roots →
        ∀ o2 ∈ h2.objects, o2.addr ≠ o.addr) := by
  rw [gc_collect_some hheap hrun]
  refine ⟨_, rfl, ?_, ?_⟩
  · intro o ho hr
    have hhits : rootHits h o := by
      refine ⟨o.addr + HDR, hr, ?_, ?_, (hbounds o ho).2, rfl⟩
      · simp [HDR]
      · exact le_trans (hbounds o ho).1 (Nat.le_add_right _ _)
    refine ⟨o.clearMarked.setMarked, ?_, rfl, rfl⟩
    apply List.mem_filter.mpr
    refine ⟨?_, GCObj.marked_setMarked _⟩
    unfold gc_marked_objects
    exact List.mem_map.mpr ⟨o, ho, by rw [if_pos hhits]⟩
  · intro o ho hnr o2 ho2 haddr
    have hf := List.mem_filter.mp ho2
    unfold gc_marked_objects at hf
    obtain ⟨o3, ho3, himg⟩ := List.mem_map.mp hf.1
    by_cases hhit : rootHits h o3
    · rw [if_pos hhit] at himg
      obtain ⟨r, hrmem, _, _, _, hraddr⟩ := hhit
      apply hnr
      have haddr3 : o3.addr = o2.addr := by rw [← himg]; rfl
      have heq : o.addr + HDR = r := by rw [← hraddr, haddr3, haddr]
      exact heq ▸ hrmem
    · rw [if_neg hhit] at himg
      have hm := hf.2
      rw [← himg, GCObj.marked_clearMarked] at hm
      exact absurd hm (by simp)

/-- Witness for C1's theorem: the two-object demonstration heap; the rooted
object (payload 1024) survives collection, the unrooted one is removed. -/
theorem gc_collect_mark_sweep_correct_witness :
    ∃ h2, (gc_collect gcDemoState).heap = some h2 ∧
      (∀ o ∈ gcDemoHeap.objects, o.addr + HDR ∈ gcDemoHeap.roots →
        ∃ o2, o2 ∈ h2.objects ∧ o2.addr = o.addr ∧ o2.size = o.size) ∧
      (∀ o ∈ gcDemoHeap.objects, o.addr + HDR ∉ gcDemoHeap.roots →
        ∀ o2 ∈ h2.objects, o2.addr ≠ o.addr) :=
  gc_collect_mark_sweep_correct gcDemoState gcDemoHeap (by decide) (by decide)
    (by decide) (by decide)

/-- Counterexample to C1 as stated: in `gcEdgeState` the arena is exactly one
header long; the single allocated object has payload pointer `1024 = heap_end`,
which is registered as a root, yet `gc_is_heap_ptr` rejects it (strict upper
bound), the mark phase skips it, and the sweep removes the rooted object. -/
theorem gc_collect_root_swept_cex :
    gcObjects gcEdgeState = [{ addr := 1000, flags := 0, size := 0 }] ∧
    gcRoots gcEdgeState = [1024] ∧
    (1000 : Nat) + HDR = 1024 ∧
    gcObjects (gc_collect gcEdgeState) = [] := by decide

/-- C7: `gc_collect()` never increases the `free_bytes` statistic (swept bump
memory is not reclaimed); in fact the sweep leaves `free_bytes` untouched. -/
theorem gc_collect_free_bytes_no_increase (st : GCState) :
    (gc_collect st).stats.free_bytes ≤ st.stats.free_bytes :=
  le_of_eq (gc_collect_stats_preserved st).2.1

/-! ### `gc_alloc` path analysis -/

theorem gc_collect_count {st : GCState} {h : GCHeap} (hh : st.heap = some h)
    (hr : h.gc_running = false) :
    (gc_collect st).stats.collection_count = st.stats.collection_count + 1 := by
  rw [gc_collect_some hh hr]

/-- When the bump check fails, `gc_alloc` runs one collection, re-checks (the
cursor cannot have moved: collection never reclaims bump memory), and returns
`NULL` with the collected state. -/
theorem gc_alloc_over {st : GCState} {h : GCHeap} (size flags : Nat)
    (hh : st.heap = some h) (hrun : h.gc_running = false)
    (hover : h.free_ptr + (HDR + size) > h.heap_end) :
    gc_alloc st size flags = (gc_collect st, none) := by
  obtain ⟨h2, hh2, e1, e2, e3, _⟩ := gc_collect_heap_preserved hh hrun
  obtain ⟨sheap, sstats⟩ := st
  simp only at hh
  subst hh
  unfold gc_alloc
  dsimp only
  rw [if_pos hover, hh2]
  dsimp only
  rw [if_pos (by rw [GCHeap.heap_end, e1, e2, e3]; exact hover)]

/-- When the bump check passes, `gc_alloc` allocates directly. -/
theorem gc_alloc_fit {st : GCState} {h : GCHeap} (size flags : Nat)
    (hh : st.heap = some h)
    (hfit : ¬ (h.free_ptr + (HDR + size) > h.heap_end)) :
    gc_alloc st size flags = gc_alloc_bump h st.stats size flags := by
  obtain ⟨sheap, sstats⟩ := st
  simp only at hh
  subst hh
  unfold gc_alloc
  dsimp only
  rw [if_neg hfit]

/-- Every successful `gc_alloc` went through the bump tail, either directly or
after the single synchronous collection. -/
theorem gc_alloc_success {st : GCState} {size flags : Nat} {st2 : GCState} {p : Nat}
    (hsucc : gc_alloc st size flags = (st2, some p)) :
    ∃ st1 h1, (st1 = st ∨ st1 = gc_collect st) ∧ st1.heap = some h1 ∧
      ¬ (h1.free_ptr + (HDR + size) > h1.heap_end) ∧
      gc_alloc_bump h1 st1.stats size flags = (st2, some p) := by
  obtain ⟨sheap, sstats⟩ := st
  unfold gc_alloc at hsucc
  cases sheap with
  | none => exact absurd (congrArg Prod.snd hsucc) (by simp)
  | some h =>
    dsimp only at hsucc
    by_cases hover : h.free_ptr + (HDR + size) > h.heap_end
    · rw [if_pos hover] at hsucc
      cases hcoll : (gc_collect ⟨some h, sstats⟩).heap with
      | none => rw [hcoll] at hsucc; exact absurd (congrArg Prod.snd hsucc) (by simp)
      | some h1 =>
        rw [hcoll] at hsucc
        dsimp only at hsucc
        by_cases hover2 : h1.free_ptr + (HDR + size) > h1.heap_end
        · rw [if_pos hover2] at hsucc
          exact absurd (congrArg Prod.snd hsucc) (by simp)
        · rw [if_neg hover2] at hsucc
          exact ⟨gc_collect ⟨some h, sstats⟩, h1, Or.inr rfl, hcoll, hover2, hsucc⟩
    · rw [if_neg hover] at hsucc
      exact ⟨⟨some h, sstats⟩, h, Or.inl rfl, rfl, hover, hsucc⟩

/-- C2 (amended): allocation discipline of `gc_alloc` for initialized heaps
and payload sizes `size > 0` (the claim's `gc_is_heap_ptr p = true` fails for
a zero-size allocation that exactly exhausts the arena, see the
counterexample).  If header+payload would overrun the arena end, exactly one
synchronous collection runs and, the cursor being unmoved, `NULL` is returned;
otherwise the call succeeds, returns the payload pointer `free_ptr + HDR`
satisfying `gc_is_heap_ptr`, and links the new header at the head of the
intrusive object list. -/
theorem gc_alloc_spec (st : GCState) (h : GCHeap) (size flags : Nat)
    (hheap : st.heap = some h) (hrun : h.gc_running = false)
    (hfp : h.heap_start ≤ h.free_ptr) (hsz : 0 < size) :
    (h.free_ptr + (HDR + size) > h.heap_end →
      gc_alloc st size flags = (gc_collect st, none) ∧
      (gc_collect st).stats.collection_count = st.stats.collection_count + 1) ∧
    (¬ (h.free_ptr + (HDR + size) > h.heap_end) →
      ∃ st2 h2, gc_alloc st size flags = (st2, some (h.free_ptr + HDR)) ∧
        gc_is_heap_ptr st2 (h.free_ptr + HDR) = true ∧
        st2.heap = some h2 ∧
        h2.objects = { addr := h.free_ptr, flags := flags, size := size } :: h.objects) := by
  constructor
  · intro hover
    exact ⟨gc_alloc_over size flags hheap hrun hover, gc_collect_count hheap hrun⟩
  · intro hfit
    rw [gc_alloc_fit size flags hheap hfit]
    refine ⟨_, _, rfl, ?_, rfl, rfl⟩
    unfold gc_is_heap_ptr
    dsimp only
    rw [GCHeap.heap_end] at hfit
    simp only [GCHeap.heap_end, Bool.and_eq_true, decide_eq_true_eq, bne_iff_ne, ne_eq]
    unfold HDR at hfit ⊢
    omega

/-- Witness for C2's theorem at a concrete input: fresh 100-byte arena at
address 1000, allocation of 8 payload bytes. -/
theorem gc_alloc_spec_witness :
    (let st := (gc_init GCState.initial 1000 100).1
     let h : GCHeap := { heap_start := 1000, heap_size := 100, free_ptr := 1000,
                         objects := [], object_count := 0, roots := [], gc_running := false }
     (h.free_ptr + (HDR + 8) > h.heap_end →
       gc_alloc st 8 0 = (gc_collect st, none) ∧
       (gc_collect st).stats.collection_count = st.stats.collection_count + 1) ∧
     (¬ (h.free_ptr + (HDR + 8) > h.heap_end) →
       ∃ st2 h2, gc_alloc st 8 0 = (st2, some (h.free_ptr + HDR)) ∧
         gc_is_heap_ptr st2 (h.free_ptr + HDR) = true ∧
         st2.heap = some h2 ∧
         h2.objects = { addr := h.free_ptr, flags := 0, size := 8 } :: h.objects)) :=
  gc_alloc_spec (gc_init GCState.initial 1000 100).1
    { heap_start := 1000, heap_size := 100, free_ptr := 1000,
      objects := [], object_count := 0, roots := [], gc_running := false }
    8 0 (by decide) (by decide) (by decide) (by decide)

/-- Counterexample to C2 as stated: with an arena of exactly
`sizeof(gc_header_t)` bytes, `gc_alloc(0, 0)` succeeds and returns the payload
pointer 1024, but that pointer equals `heap_end`, so `gc_is_heap_ptr` is false
on it. -/
theorem gc_alloc_is_heap_ptr_cex :
    (gc_alloc (gc_init GCState.initial 1000 HDR).1 0 0).2 = some 1024 ∧
    gc_is_heap_ptr (gc_alloc (gc_init GCState.initial 1000 HDR).1 0 0).1 1024 = false := by
  decide

/-! ### Stats accounting invariant (C10) -/

theorem gc_collect_heap_preserved_any {st : GCState} {h : GCHeap} (hh : st.heap = some h) :
    ∃ h2, (gc_collect st).heap = some h2 ∧ h2.heap_start = h.heap_start ∧
      h2.heap_size = h.heap_size ∧ h2.free_ptr = h.free_ptr := by
  cases hr : h.gc_running with
  | true => rw [gc_collect_running hh hr, hh]; exact ⟨h, rfl, rfl, rfl, rfl⟩
  | false =>
    obtain ⟨h2, hh2, e1, e2, e3, _⟩ := gc_collect_heap_preserved hh hr
    exact ⟨h2, hh2, e1, e2, e3⟩

theorem gc_alloc_none {st : GCState} (size flags : Nat) (hh : st.heap = none) :
    gc_alloc st size flags = (st, none) := by
  obtain ⟨sheap, sstats⟩ := st
  simp only at hh
  subst hh
  rfl

/-- The overrun path of `gc_alloc`, without assuming `gc_running = false`:
the re-check after the collection necessarily fails again because collection
never moves the bump cursor. -/
theorem gc_alloc_over_any {st : GCState} {h : GCHeap} (size flags : Nat)
    (hh : st.heap = some h)
    (hover : h.free_ptr + (HDR + size) > h.heap_end) :
    gc_alloc st size flags = (gc_collect st, none) := by
  obtain ⟨h2, hh2, e1, e2, e3⟩ := gc_collect_heap_preserved_any hh
  obtain ⟨sheap, sstats⟩ := st
  simp only at hh
  subst hh
  unfold gc_alloc
  dsimp only
  rw [if_pos hover, hh2]
  dsimp only
  rw [if_pos (by rw [GCHeap.heap_end, e1, e2, e3]; exact hover)]

theorem statsInv_init (base heap_size : Nat) :
    StatsInv (gc_init GCState.initial base heap_size).1 := by
  unfold gc_init GCState.initial StatsInv
  dsimp only
  constructor
  · omega
  · intro h hh
    injection hh with hh
    subst hh
    simp [GCHeap.heap_end]

theorem statsInv_collect {st : GCState} (hinv : StatsInv st) : StatsInv (gc_collect st) := by
  cases hh : st.heap with
  | none => rw [gc_collect_none hh]; exact hinv
  | some h =>
    cases hr : h.gc_running with
    | true => rw [gc_collect_running hh hr]; exact hinv
    | false =>
      have hb := hinv.2 h hh
      rw [gc_collect_some hh hr]
      refine ⟨hinv.1, ?_⟩
      intro h2 hh2
      injection hh2 with hh2
      subst hh2
      exact ⟨hb.1, hb.2.1, hb.2.2⟩

theorem statsInv_alloc {st : GCState} (size flags : Nat) (hinv : StatsInv st) :
    StatsInv (gc_alloc st size flags).1 := by
  cases hh : st.heap with
  | none => rw [gc_alloc_none size flags hh]; exact hinv
  | some h =>
    by_cases hover : h.free_ptr + (HDR + size) > h.heap_end
    · rw [gc_alloc_over_any size flags hh hover]
      exact statsInv_collect hinv
    · rw [gc_alloc_fit size flags hh hover]
      obtain ⟨hsum, hheap⟩ := hinv
      obtain ⟨ehs, ele, eend⟩ := hheap h hh
      rw [GCHeap.heap_end] at hover eend
      have htot : HDR + size ≤ st.stats.free_bytes := by omega
      unfold gc_alloc_bump StatsInv
      dsimp only
      constructor
      · omega
      · intro h2 hh2
        injection hh2 with hh2
        subst hh2
        refine ⟨ehs, ?_, ?_⟩
        · dsimp only
          omega
        · rw [GCHeap.heap_end]
          dsimp only
          omega

theorem statsInv_addRoot {st : GCState} (ptr : Nat) (hinv : StatsInv st) :
    StatsInv (gc_add_root st ptr).1 := by
  cases hh : st.heap with
  | none =>
    have : gc_add_root st ptr = (st, false) := by
      obtain ⟨sheap, sstats⟩ := st
      simp only at hh
      subst hh
      rfl
    rw [this]; exact hinv
  | some h =>
    obtain ⟨sheap, sstats⟩ := st
    simp only at hh
    subst hh
    unfold gc_add_root
    dsimp only
    by_cases h0 : ptr = 0
    · rw [if_pos h0]; exact hinv
    · rw [if_neg h0]
      by_cases hmem : ptr ∈ h.roots
      · rw [if_pos hmem]; exact hinv
      · rw [if_neg hmem]
        refine ⟨hinv.1, ?_⟩
        intro h2 hh2
        injection hh2 with hh2
        subst hh2
        exact hinv.2 h rfl

theorem statsInv_removeRoot {st : GCState} (ptr : Nat) (hinv : StatsInv st) :
    StatsInv (gc_remove_root st ptr) := by
  cases hh : st.heap with
  | none =>
    have : gc_remove_root st ptr = st := by
      obtain ⟨sheap, sstats⟩ := st
      simp only at hh
      subst hh
      rfl
    rw [this]; exact hinv
  | some h =>
    obtain ⟨sheap, sstats⟩ := st
    simp only at hh
    subst hh
    unfold gc_remove_root
    dsimp only
    by_cases h0 : ptr = 0
    · rw [if_pos h0]; exact hinv
    · rw [if_neg h0]
      refine ⟨hinv.1, ?_⟩
      intro h2 hh2
      injection hh2 with hh2
      subst hh2
      exact hinv.2 h rfl

theorem gcReach_statsInv {st : GCState} (hr : GCReach st) : StatsInv st := by
  induction hr with
  | init base heap_size => exact statsInv_init base heap_size
  | alloc size flags _ ih => exact statsInv_alloc size flags ih
  | collect _ ih => exact statsInv_collect ih
  | addRoot ptr _ ih => exact statsInv_addRoot ptr ih
  | removeRoot ptr _ ih => exact statsInv_removeRoot ptr ih

/-- C10: on every state reachable from `gc_init`, the statistics satisfy
`used_bytes + free_bytes = heap_size`; a successful `gc_alloc(size)` moves
exactly `sizeof(gc_header_t) + size` bytes from `free_bytes` to `used_bytes`;
and `gc_collect` changes neither counter. -/
theorem gc_stats_accounting (st : GCState) (hreach : GCReach st) :
    st.stats.used_bytes + st.stats.free_bytes = st.stats.heap_size ∧
    (∀ size flags st2 p, gc_alloc st size flags = (st2, some p) →
      st2.stats.used_bytes = st.stats.used_bytes + (HDR + size) ∧
      st.stats.free_bytes = st2.stats.free_bytes + (HDR + size)) ∧
    (gc_collect st).stats.used_bytes = st.stats.used_bytes ∧
    (gc_collect st).stats.free_bytes = st.stats.free_bytes := by
  have hinv := gcReach_statsInv hreach
  refine ⟨hinv.1, ?_, (gc_collect_stats_preserved st).1, (gc_collect_stats_preserved st).2.1⟩
  intro size flags st2 p hsucc
  obtain ⟨st1, h1, hst1, hh1, hfit, hbump⟩ := gc_alloc_success hsucc
  have hinv1 : StatsInv st1 := by
    rcases hst1 with rfl | rfl
    · exact hinv
    · exact statsInv_collect hinv
  have hused1 : st1.stats.used_bytes = st.stats.used_bytes := by
    rcases hst1 with rfl | rfl
    · rfl
    · exact (gc_collect_stats_preserved st).1
  have hfree1 : st1.stats.free_bytes = st.stats.free_bytes := by
    rcases hst1 with rfl | rfl
    · rfl
    · exact (gc_collect_stats_preserved st).2.1
  have hs2 : st2 = (gc_alloc_bump h1 st1.stats size flags).1 := (congrArg Prod.fst hbump).symm
  obtain ⟨_, ele, eend⟩ := hinv1.2 h1 hh1
  rw [GCHeap.heap_end] at hfit eend
  have htot : HDR + size ≤ st1.stats.free_bytes := by omega
  have hu : st2.stats.used_bytes = st1.stats.used_bytes + (HDR + size) := by
    rw [hs2]; rfl
  have hf : st2.stats.free_bytes = st1.stats.free_bytes - (HDR + size) := by
    rw [hs2]; rfl
  constructor
  · rw [hu, hused1]
  · rw [hf, hfree1] at *
    omega

/-- Witness for C10's theorem: `gcDemoState` is reachable (init, two allocs,
one add-root); its accounting invariant and the collect/alloc deltas hold
concretely. -/
theorem gc_stats_accounting_witness :
    gcDemoState.stats.used_bytes + gcDemoState.stats.free_bytes = gcDemoState.stats.heap_size ∧
    (gc_alloc gcDemoState 8 0).1.stats.used_bytes = gcDemoState.stats.used_bytes + (HDR + 8) ∧
    (gc_collect gcDemoState).stats.used_bytes = gcDemoState.stats.used_bytes ∧
    (gc_collect gcDemoState).stats.free_bytes = gcDemoState.stats.free_bytes := by
  have hreach : GCReach gcDemoState :=
    GCReach.addRoot 1024 (GCReach.alloc 4 0 (GCReach.alloc 8 0 (GCReach.init 1000 100)))
  have h := gc_stats_accounting gcDemoState hreach
  refine ⟨h.1, ?_, h.2.2.1, h.2.2.2⟩
  have hsucc : gc_alloc gcDemoState 8 0 = ((gc_alloc gcDemoState 8 0).1, some 1084) := by
    decide
  exact (h.2.1 8 0 (gc_alloc gcDemoState 8 0).1 1084 hsucc).1

/-! ### Signal graph theorems -/

/-- C3: signal propagation through both paths.  With `s = signal_create(1)`
and `c = computed_create(() => get(s) * 2)` registered as a dependent of `s`:
`get(c) = 2`; after `set(s, 5)` the push path (mark-dirty + synchronous
propagation inside `signal_set_value`) has already recomputed `c`
(`value = 10`, `needs_recompute = false`) and `get(c) = 10`; independently,
marking `s` dirty again without running propagation flags `c`
(`needs_recompute = true`) and the pull path inside `signal_get_value` then
recomputes lazily, returning 10 and clearing the flag. -/
theorem signal_propagation_both_paths :
    (signal_get_value sigDemo2 sigDemoC).2 = 2 ∧
    (findSig sigDemo3.store sigDemoC).map SigNode.value = some 10 ∧
    (findSig sigDemo3.store sigDemoC).map SigNode.needs_recompute = some false ∧
    (signal_get_value sigDemo3 sigDemoC).2 = 10 ∧
    (findSig sigDemo4.store sigDemoC).map SigNode.needs_recompute = some true ∧
    (signal_get_value sigDemo4 sigDemoC).2 = 10 ∧
    (findSig (signal_get_value sigDemo4 sigDemoC).1.store sigDemoC).map
        SigNode.needs_recompute = some false :=
  ⟨rfl, rfl, rfl, rfl, rfl, rfl, rfl⟩

/-- C4 (code evaluated at the failing input): `signal_set_value` on a computed
signal returns with the state — in particular the signal's value — completely
unchanged; the function's return type is `void`, so no error reaches the
caller. -/
theorem signal_set_computed_silently_ignored (st : SigState) (id : Nat) (n : SigNode)
    (v : Int) (hs : findSig st.store id = some n) (hc : n.is_computed = true) :
    signal_set_value st id v = st := by
  unfold signal_set_value
  rw [hs]
  dsimp only
  rw [hc]
  simp

/-- Witness for C4's theorem: setting the computed signal `c` of the C3
scenario to 7 is a complete no-op. -/
theorem signal_set_computed_silently_ignored_witness :
    signal_set_value sigDemo2 sigDemoC 7 = sigDemo2 :=
  signal_set_computed_silently_ignored sigDemo2 sigDemoC
    { value := 2, dependents := [], is_computed := true,
      compute_fn := some (fun read => read sigDemoS * 2), needs_recompute := false }
    7 rfl rfl

theorem findSig_updateSig (store : List (Nat × SigNode)) (id : Nat) (f : SigNode → SigNode) :
    findSig (store.map (fun p => if p.1 = id then (p.1, f p.2) else p)) id =
      (findSig store id).map f := by
  induction store with
  | nil => rfl
  | cons p rest ih =>
    obtain ⟨i, n⟩ := p
    by_cases hp : i = id
    · subst hp
      simp only [List.map_cons]
      rw [if_pos trivial]
      unfold findSig
      simp
    · simp only [List.map_cons]
      rw [if_neg hp]
      unfold findSig
      rw [if_neg hp, if_neg hp, ih]

/-- C8: dependent dedup-on-insert.  Calling `signal_add_dependent(s, d)` twice
on a signal whose dependents list holds `d` at most once (the invariant the
insert itself maintains) reports success both times and leaves exactly one
entry equal to `d`. -/
theorem signal_add_dependent_dedup (st : SigState) (s d : Nat) (n : SigNode)
    (hs0 : s ≠ 0) (hd0 : d ≠ 0) (hs : findSig st.store s = some n)
    (hcount : n.dependents.count d ≤ 1) :
    (signal_add_dependent st s d).2 = true ∧
    (signal_add_dependent (signal_add_dependent st s d).1 s d).2 = true ∧
    ∃ m, findSig (signal_add_dependent (signal_add_dependent st s d).1 s d).1.store s
        = some m ∧ m.dependents.count d = 1 := by
  have hnull : ¬ (s = 0 ∨ d = 0) := by tauto
  by_cases hmem : d ∈ n.dependents
  · have h1 : signal_add_dependent st s d = (st, true) := by
      unfold signal_add_dependent
      rw [if_neg (by simpa using hnull), hs]
      dsimp only
      rw [if_pos hmem]
    rw [h1]
    refine ⟨rfl, ?_, ?_⟩
    · rw [h1]
    · rw [h1]
      exact ⟨n, hs, Nat.le_antisymm hcount (List.count_pos_iff.mpr hmem)⟩
  · have h1 : signal_add_dependent st s d =
        (updateSig st s (fun m => { m with dependents := m.dependents ++ [d] }), true) := by
      unfold signal_add_dependent
      rw [if_neg (by simpa using hnull), hs]
      dsimp only
      rw [if_neg hmem]
    have hfind1 : findSig (updateSig st s
        (fun m => { m with dependents := m.dependents ++ [d] })).store s =
        some { n with dependents := n.dependents ++ [d] } := by
      show findSig (st.store.map _) s = _
      rw [findSig_updateSig st.store s
        (fun m => { m with dependents := m.dependents ++ [d] }), hs]
      rfl
    have hmem1 : d ∈ n.dependents ++ [d] := by simp
    have h2 : signal_add_dependent
        (updateSig st s (fun m => { m with dependents := m.dependents ++ [d] })) s d =
        (updateSig st s (fun m => { m with dependents := m.dependents ++ [d] }), true) := by
      unfold signal_add_dependent
      rw [if_neg (by simpa using hnull), hfind1]
      dsimp only
      rw [if_pos hmem1]
    rw [h1]
    dsimp only
    rw [h2]
    refine ⟨rfl, rfl, ⟨{ n with dependents := n.dependents ++ [d] }, hfind1, ?_⟩⟩
    dsimp only
    rw [List.count_append]
    rw [List.count_eq_zero.mpr hmem]
    simp

/-- Witness for C8's theorem: adding `c` (= 2) as a dependent of `s` (= 1)
twice more in the C3 scenario state keeps exactly one entry. -/
theorem signal_add_dependent_dedup_witness :
    (signal_add_dependent sigDemo2 1 2).2 = true ∧
    (signal_add_dependent (signal_add_dependent sigDemo2 1 2).1 1 2).2 = true ∧
    ∃ m, findSig (signal_add_dependent (signal_add_dependent sigDemo2 1 2).1 1 2).1.store 1
        = some m ∧ m.dependents.count 2 = 1 :=
  signal_add_dependent_dedup sigDemo2 1 2
    { value := 1, dependents := [2], is_computed := false,
      compute_fn := none, needs_recompute := false }
    (by decide) (by decide) rfl (by decide)

/-! ### Circular-buffer FIFO (C5) -/

theorem MsgQueue.toList_length (q : MsgQueue α) : q.toList.length = q.count := by
  simp [MsgQueue.toList]

/-- A logical index strictly below `count` never aliases the tail slot while
the queue is not full. -/
theorem slot_index_ne_tail (q : MsgQueue α) (hWF : q.WF) (hlt : q.count < q.capacity)
    {i : Nat} (hi : i < q.count) : (q.head + i) % q.capacity ≠ q.tail := by
  obtain ⟨hlen, hle, hhead, htail⟩ := hWF
  rw [htail]
  intro heq
  have hmod : i ≡ q.count [MOD q.capacity] := Nat.ModEq.add_left_cancel' q.head heq
  have hdvd := (Nat.modEq_iff_dvd' (Nat.le_of_lt hi)).mp hmod
  have hlb := Nat.le_of_dvd (by omega) hdvd
  omega

theorem getD_set_ne {l : List (Option α)} {i j : Nat} {a d : Option α} (h : i ≠ j) :
    (l.set i a).getD j d = l.getD j d := by
  simp [List.getD, List.getElem?_set_ne h]

theorem getD_set_self {l : List (Option α)} {i : Nat} {a d : Option α} (h : i < l.length) :
    (l.set i a).getD i d = a := by
  simp [List.getD, List.getElem?_set_self, h]

/-- Lemma: `message_queue_put` on a running system with a non-full well-formed queue:
succeeds and appends the message at the logical end. -/
theorem message_queue_put_spec (q : MsgQueue α) (m : α) (hWF : q.WF)
    (hlt : q.count < q.capacity) :
    ∃ q1, message_queue_put true q m = some (q1, true) ∧ q1.WF ∧
      q1.capacity = q.capacity ∧ q1.count = q.count + 1 ∧
      q1.toList = q.toList ++ [some m] := by
  obtain ⟨hlen, hle, hhead, htail⟩ := hWF
  have hcap : 0 < q.capacity := Nat.lt_of_le_of_lt (Nat.zero_le _) hhead
  have hput : message_queue_put true q m =
      some ({ q with messages := q.messages.set q.tail (some m),
                     tail := (q.tail + 1) % q.capacity,
                     count := q.count + 1 }, true) := by
    unfold message_queue_put
    rw [if_neg, if_neg] <;> simp [message_queue_full, Nat.not_le.mpr hlt]
  refine ⟨_, hput, ⟨?_, ?_, ?_, ?_⟩, rfl, rfl, ?_⟩
  · simpa using hlen
  · exact hlt
  · exact hhead
  · show (q.tail + 1) % q.capacity = (q.head + (q.count + 1)) % q.capacity
    rw [htail, Nat.mod_add_mod, ← Nat.add_assoc]
  · show (List.range (q.count + 1)).map _ = (List.range q.count).map q.slot ++ [some m]
    rw [List.range_succ, List.map_append]
    congr 1
    · apply List.map_congr_left
      intro i hi
      have hi2 : i < q.count := List.mem_range.mp hi
      show (q.messages.set q.tail (some m)).getD ((q.head + i) % q.capacity) none = q.slot i
      rw [getD_set_ne (fun h => slot_index_ne_tail q ⟨hlen, hle, hhead, htail⟩ hlt hi2 h.symm)]
      rfl
    · show [(q.messages.set q.tail (some m)).getD ((q.head + q.count) % q.capacity) none] = _
      rw [← htail, getD_set_self (by rw [hlen, htail]; exact Nat.mod_lt _ hcap)]

/-- Lemma: `message_queue_get` on a running system with a nonempty well-formed queue:
returns the logical head and drops it. -/
theorem message_queue_get_spec (q : MsgQueue α) (hWF : q.WF) (hpos : 0 < q.count) :
    ∃ q1, message_queue_get true q = some (q1, q.slot 0) ∧ q1.WF ∧
      q1.capacity = q.capacity ∧ q1.count = q.count - 1 ∧
      q1.toList = q.toList.tail := by
  obtain ⟨hlen, hle, hhead, htail⟩ := hWF
  have hcap : 0 < q.capacity := Nat.lt_of_le_of_lt (Nat.zero_le _) hhead
  have hget : message_queue_get true q =
      some ({ q with head := (q.head + 1) % q.capacity, count := q.count - 1 },
            q.messages.getD q.head none) := by
    unfold message_queue_get
    rw [if_neg, if_neg] <;> simp [message_queue_empty, Nat.pos_iff_ne_zero.mp hpos]
  have hslot0 : q.messages.getD q.head none = q.slot 0 := by
    show _ = q.messages.getD ((q.head + 0) % q.capacity) none
    rw [Nat.add_zero, Nat.mod_eq_of_lt hhead]
  refine ⟨{ q with head := (q.head + 1) % q.capacity, count := q.count - 1 },
    by rw [hget, hslot0], ⟨?_, ?_, ?_, ?_⟩, rfl, rfl, ?_⟩
  · exact hlen
  · exact Nat.le_trans (Nat.sub_le _ _) hle
  · exact Nat.mod_lt _ hcap
  · show q.tail = ((q.head + 1) % q.capacity + (q.count - 1)) % q.capacity
    rw [htail, Nat.mod_add_mod]
    exact congrArg (· % q.capacity) (by omega)
  · show (List.range (q.count - 1)).map _ = ((List.range q.count).map q.slot).tail
    have hc : q.count = (q.count - 1) + 1 := by omega
    rw [hc, List.range_succ_eq_map, List.map_cons, List.tail_cons, List.map_map]
    apply List.map_congr_left
    intro i _
    show (MsgQueue.slot _ i) = q.slot (i + 1)
    unfold MsgQueue.slot
    show q.messages.getD (((q.head + 1) % q.capacity + i) % q.capacity) none = _
    rw [Nat.mod_add_mod]
    exact congrArg (fun j => q.messages.getD (j % q.capacity) none) (by omega)

/-- Sending `ms` into a well-formed queue with enough free slots succeeds and
appends them in order. -/
theorem putAll_spec (ms : List α) (q : MsgQueue α) (hWF : q.WF)
    (hfit : q.count + ms.length ≤ q.capacity) :
    ∃ q1, putAll q ms = some q1 ∧ q1.WF ∧ q1.capacity = q.capacity ∧
      q1.count = q.count + ms.length ∧
      q1.toList = q.toList ++ ms.map some := by
  induction ms generalizing q with
  | nil => exact ⟨q, rfl, hWF, rfl, by simp, by simp⟩
  | cons m ms ih =>
    obtain ⟨q1, hput, hWF1, hcap1, hcount1, htl1⟩ :=
      message_queue_put_spec q m hWF (by simp at hfit; omega)
    obtain ⟨q2, hputs, hWF2, hcap2, hcount2, htl2⟩ :=
      ih q1 hWF1 (by simp at hfit ⊢; omega)
    refine ⟨q2, ?_, hWF2, by omega, by simp; omega, ?_⟩
    · unfold putAll
      rw [hput]
      exact hputs
    · rw [htl2, htl1]
      simp

/-- Scheduling a well-formed queue holding exactly the messages `ws` delivers
them to the behavior in order. -/
theorem drainAll_spec (ws : List α) (q : MsgQueue α) (hWF : q.WF)
    (htl : q.toList = ws.map some) :
    ∃ q1, drainAll q ws.length = some (q1, ws) := by
  induction ws generalizing q with
  | nil => exact ⟨q, rfl⟩
  | cons w ws ih =>
    have hcount : q.count = ws.length + 1 := by
      have := MsgQueue.toList_length q
      rw [htl] at this
      simp at this
      omega
    obtain ⟨q1, hget, hWF1, hcap1, hcount1, htl1⟩ :=
      message_queue_get_spec q hWF (by omega)
    have hslot : q.slot 0 = some w := by
      have : q.toList.head? = some (some w) := by rw [htl]; rfl
      rw [MsgQueue.toList] at this
      rw [hcount] at this
      rw [List.range_succ_eq_map] at this
      simp at this
      exact this
    obtain ⟨q2, hdrain⟩ := ih q1 hWF1 (by rw [htl1, htl]; rfl)
    refine ⟨q2, ?_⟩
    show drainAll q (ws.length + 1) = some (q2, w :: ws)
    unfold drainAll actor_schedule
    rw [if_neg (by simp)]
    rw [hget, hslot]
    dsimp only
    rw [hdrain]
    rfl

/-- C5: mailbox FIFO.  For a mailbox of capacity `C > 0` and any message
sequence `ms` with `|ms| ≤ C`, all sends succeed, and repeatedly scheduling
the actor delivers exactly `ms`, in send order, to its behavior. -/
theorem mailbox_fifo (α : Type) (C : Nat) (ms : List α) (hC : 0 < C)
    (hk : ms.length ≤ C) :
    ∃ q1 q2, putAll (message_queue_create α C) ms = some q1 ∧
      drainAll q1 ms.length = some (q2, ms) := by
  have hWF : (message_queue_create α C).WF := by
    refine ⟨by simp [message_queue_create], by simp [message_queue_create], ?_, ?_⟩
    · simpa [message_queue_create] using hC
    · simp [message_queue_create]
  obtain ⟨q1, hputs, hWF1, hcap1, hcount1, htl1⟩ :=
    putAll_spec ms (message_queue_create α C) hWF (by simpa [message_queue_create] using hk)
  have htl1s : q1.toList = ms.map some := by
    rw [htl1]
    simp [MsgQueue.toList, message_queue_create]
  obtain ⟨q2, hdrain⟩ := drainAll_spec ms q1 hWF1 htl1s
  exact ⟨q1, q2, hputs, hdrain⟩

/-- Witness for C5's theorem: capacity 3, messages `[10, 20, 30]`. -/
theorem mailbox_fifo_witness :
    ∃ q1 q2, putAll (message_queue_create Nat 3) [10, 20, 30] = some q1 ∧
      drainAll q1 3 = some (q2, [10, 20, 30]) :=
  mailbox_fifo Nat 3 [10, 20, 30] (by decide) (by decide)

/-! ### Shutdown of blocked senders (C6) -/

/-- C6 (code evaluated at the failing scenario): with the system running, a
send to a full mailbox blocks its caller (`message_queue_put` enters
`pthread_cond_wait(&not_full)`, rendered as `none`), and `actors_stop()` —
which only clears `running` and joins the scheduler and worker threads,
signalling no mailbox condition variable — leaves every blocked sender
blocked and every mailbox untouched: nobody wakes the waiters, contradicting
the claimed wake-and-fail behavior. -/
theorem actors_stop_leaves_senders_blocked (α : Type) (s : ActorSys α)
    (q : MsgQueue α) (m : α) (hfull : message_queue_full q = true) :
    message_queue_put true q m = none ∧
    (actors_stop s).blocked_senders = s.blocked_senders ∧
    (actors_stop s).queue = s.queue := by
  refine ⟨?_, ?_, ?_⟩
  · unfold message_queue_put
    rw [hfull]
    rfl
  · unfold actors_stop
    split <;> rfl
  · unfold actors_stop
    split <;> rfl

/-- Witness for C6's theorem: a full one-slot mailbox, a system with one
blocked sender (thread 99). -/
theorem actors_stop_leaves_senders_blocked_witness :
    message_queue_put true (⟨[some 5], 1, 1, 0, 0⟩ : MsgQueue Nat) 7 = none ∧
    (actors_stop (⟨true, [99], ⟨[some 5], 1, 1, 0, 0⟩⟩ : ActorSys Nat)).blocked_senders
      = [99] ∧
    (actors_stop (⟨true, [99], ⟨[some 5], 1, 1, 0, 0⟩⟩ : ActorSys Nat)).queue
      = ⟨[some 5], 1, 1, 0, 0⟩ :=
  actors_stop_leaves_senders_blocked Nat ⟨true, [99], ⟨[some 5], 1, 1, 0, 0⟩⟩
    ⟨[some 5], 1, 1, 0, 0⟩ 7 (by decide)

/-! ### Object slot-table theorems (C9) -/

theorem setPairs_fresh (al : List (Nat × Int)) (pad : Nat) (k : Nat) (v : Int)
    (hk : k ∉ al.map Prod.fst) (hpad : 0 < pad) :
    setPairs (al.map some ++ List.replicate pad none) k v =
      some ((al ++ [(k, v)]).map some ++ List.replicate (pad - 1) none) := by
  induction al with
  | nil =>
    cases pad with
    | zero => omega
    | succ p => simp [setPairs, List.replicate_succ]
  | cons a al ih =>
    obtain ⟨k0, v0⟩ := a
    simp only [List.map_cons, List.mem_cons] at hk
    push_neg at hk
    simp only [List.map_cons, List.cons_append, setPairs, List.append_eq]
    rw [if_neg (fun h => hk.1 h.symm)]
    rw [ih hk.2]
    simp

theorem setPairs_mem (al : List (Nat × Int)) (pad : Nat) (k : Nat) (v : Int)
    (hmem : k ∈ al.map Prod.fst) :
    setPairs (al.map some ++ List.replicate pad none) k v =
      some ((updA al k v).map some ++ List.replicate pad none) := by
  induction al with
  | nil => simp at hmem
  | cons a al ih =>
    obtain ⟨k0, v0⟩ := a
    by_cases h : k0 = k
    · subst h
      simp [setPairs, updA]
    · simp only [List.map_cons, List.mem_cons] at hmem
      have hm2 : k ∈ al.map Prod.fst := by tauto
      simp only [List.map_cons, List.cons_append, setPairs, updA, List.append_eq]
      rw [if_neg h, if_neg h, ih hm2]
      simp

theorem setPairs_exhausted (al : List (Nat × Int)) (k : Nat) (v : Int)
    (hk : k ∉ al.map Prod.fst) :
    setPairs (al.map some) k v = none := by
  induction al with
  | nil => rfl
  | cons a al ih =>
    obtain ⟨k0, v0⟩ := a
    simp only [List.map_cons, List.mem_cons] at hk
    push_neg at hk
    simp only [List.map_cons, setPairs]
    rw [if_neg (fun h => hk.1 h.symm), ih hk.2]
    rfl

theorem getPairs_lookupA (al : List (Nat × Int)) (pad : Nat) (k : Nat) :
    getPairs (al.map some ++ List.replicate pad none) k = lookupA al k := by
  induction al with
  | nil =>
    cases pad with
    | zero => rfl
    | succ p => simp [getPairs, List.replicate_succ, lookupA]
  | cons a al ih =>
    obtain ⟨k0, v0⟩ := a
    simp only [List.map_cons, List.cons_append, getPairs, lookupA, List.append_eq]
    by_cases h : k0 = k
    · rw [if_pos h, if_pos h]
    · rw [if_neg h, if_neg h, ih]

theorem lookupA_of_mem_nodup (al : List (Nat × Int)) (k : Nat) (v : Int)
    (hnd : (al.map Prod.fst).Nodup) (hmem : (k, v) ∈ al) : lookupA al k = some v := by
  induction al with
  | nil => simp at hmem
  | cons a al ih =>
    obtain ⟨k0, v0⟩ := a
    simp only [List.map_cons, List.nodup_cons] at hnd
    rcases List.mem_cons.mp hmem with heq | hmem2
    · injection heq with h1 h2
      unfold lookupA
      rw [if_pos h1.symm, h2]
    · have hkmem : k ∈ al.map Prod.fst := List.mem_map.mpr ⟨(k, v), hmem2, rfl⟩
      have hk0 : k0 ≠ k := fun h => hnd.1 (by rw [h]; exact hkmem)
      unfold lookupA
      rw [if_neg hk0]
      exact ih hnd.2 hmem2

theorem lookupA_updA_self (al : List (Nat × Int)) (k : Nat) (v : Int)
    (hmem : k ∈ al.map Prod.fst) : lookupA (updA al k v) k = some v := by
  induction al with
  | nil => simp at hmem
  | cons a al ih =>
    obtain ⟨k0, v0⟩ := a
    by_cases h : k0 = k
    · unfold updA
      rw [if_pos h]
      unfold lookupA
      rw [if_pos h]
    · simp only [List.map_cons, List.mem_cons] at hmem
      have hm2 : k ∈ al.map Prod.fst := by tauto
      unfold updA
      rw [if_neg h]
      unfold lookupA
      rw [if_neg h]
      exact ih hm2

/-- Filling a table whose used prefix is `al` with fresh, pairwise-distinct
keys `kvs` that fit in the `pad` remaining slots: every set succeeds and the
pairs land in order. -/
theorem setMany_go (kvs : List (Nat × Int)) : ∀ (al : List (Nat × Int)) (pad : Nat),
    (∀ k ∈ kvs.map Prod.fst, k ∉ al.map Prod.fst) →
    (kvs.map Prod.fst).Nodup →
    kvs.length ≤ pad →
    setMany ⟨al.map some ++ List.replicate pad none⟩ kvs =
      (⟨(al ++ kvs).map some ++ List.replicate (pad - kvs.length) none⟩, true) := by
  induction kvs with
  | nil => intro al pad _ _ _; simp [setMany]
  | cons a kvs ih =>
    intro al pad hfresh hnd hfit
    obtain ⟨k, v⟩ := a
    have hk : k ∉ al.map Prod.fst := hfresh k (by simp)
    have hpad : 0 < pad := by simp at hfit; omega
    unfold setMany vela_object_set
    rw [setPairs_fresh al pad k v hk hpad]
    dsimp only
    rw [ih (al ++ [(k, v)]) (pad - 1) ?hfresh ?hnd ?hfit]
    case hfresh =>
      intro k2 hk2
      simp only [List.map_append, List.mem_append, List.map_cons]
      push_neg
      refine ⟨hfresh k2 (by simp [hk2]), ?_⟩
      simp only [List.map_cons, List.nodup_cons] at hnd
      intro hmem
      simp at hmem
      exact hnd.1 (hmem ▸ hk2)
    case hnd =>
      simp only [List.map_cons, List.nodup_cons] at hnd
      exact hnd.2
    case hfit => simp at hfit; omega
    have hassoc : (al ++ [(k, v)]) ++ kvs = al ++ ((k, v) :: kvs) := by simp
    have hlen : pad - 1 - kvs.length = pad - ((k, v) :: kvs).length := by
      simp
      omega
    rw [hassoc, hlen]
    rfl

/-- C9 (amended): the boxed-object slot table holds 128 key/value pairs (256
`void*` entry slots scanned two at a time), not 256.  Starting from a fresh
object, setting up to 128 distinct keys succeeds, `vela_object_get` returns
the most recently stored value for each key (including after in-place
updates, which always succeed), and a set with a fresh key succeeds exactly
when fewer than 128 distinct keys are stored. -/
theorem object_table_spec (kvs : List (Nat × Int))
    (hnd : (kvs.map Prod.fst).Nodup) (hlen : kvs.length ≤ OBJ_PAIR_CAPACITY) :
    (setMany vela_object_create kvs).2 = true ∧
    (∀ k v, (k, v) ∈ kvs →
      vela_object_get (setMany vela_object_create kvs).1 k = some v) ∧
    (∀ k v2, k ∈ kvs.map Prod.fst →
      (vela_object_set (setMany vela_object_create kvs).1 k v2).2 = true ∧
      vela_object_get (vela_object_set (setMany vela_object_create kvs).1 k v2).1 k
        = some v2) ∧
    (∀ k v2, k ∉ kvs.map Prod.fst →
      (vela_object_set (setMany vela_object_create kvs).1 k v2).2 =
        decide (kvs.length < OBJ_PAIR_CAPACITY)) := by
  have hgo : setMany vela_object_create kvs =
      (⟨kvs.map some ++ List.replicate (OBJ_PAIR_CAPACITY - kvs.length) none⟩, true) := by
    have h := setMany_go kvs [] OBJ_PAIR_CAPACITY (by simp) hnd hlen
    simpa using h
  refine ⟨by rw [hgo], ?_, ?_, ?_⟩
  · intro k v hmem
    rw [hgo]
    show getPairs _ k = some v
    rw [getPairs_lookupA]
    exact lookupA_of_mem_nodup kvs k v hnd hmem
  · intro k v2 hmem
    rw [hgo]
    unfold vela_object_set
    dsimp only
    rw [setPairs_mem kvs _ k v2 hmem]
    dsimp only
    refine ⟨rfl, ?_⟩
    show getPairs _ k = some v2
    rw [getPairs_lookupA]
    exact lookupA_updA_self kvs k v2 hmem
  · intro k v2 hfresh
    rw [hgo]
    unfold vela_object_set
    dsimp only
    by_cases hfull : kvs.length < OBJ_PAIR_CAPACITY
    · rw [setPairs_fresh kvs _ k v2 hfresh (by omega)]
      simp [hfull]
    · have hexact : OBJ_PAIR_CAPACITY - kvs.length = 0 := by omega
      rw [hexact]
      have : kvs.map some ++ List.replicate 0 none = kvs.map some := by simp
      rw [this, setPairs_exhausted kvs k v2 hfresh]
      simp [hfull]

/-- Witness for C9's theorem: two distinct keys. -/
theorem object_table_spec_witness :
    (setMany vela_object_create [(1, 10), (2, 20)]).2 = true ∧
    (∀ k v, (k, v) ∈ [((1 : Nat), (10 : Int)), (2, 20)] →
      vela_object_get (setMany vela_object_create [(1, 10), (2, 20)]).1 k = some v) ∧
    (∀ k v2, k ∈ [((1 : Nat), (10 : Int)), (2, 20)].map Prod.fst →
      (vela_object_set (setMany vela_object_create [(1, 10), (2, 20)]).1 k v2).2 = true ∧
      vela_object_get
        (vela_object_set (setMany vela_object_create [(1, 10), (2, 20)]).1 k v2).1 k
        = some v2) ∧
    (∀ k v2, k ∉ [((1 : Nat), (10 : Int)), (2, 20)].map Prod.fst →
      (vela_object_set (setMany vela_object_create [(1, 10), (2, 20)]).1 k v2).2 =
        decide ([((1 : Nat), (10 : Int)), (2, 20)].length < OBJ_PAIR_CAPACITY)) :=
  object_table_spec [(1, 10), (2, 20)] (by decide) (by decide)

/-- Counterexample to C9 as stated: the table is full after 128 distinct keys
(all those sets succeed), and the 129th distinct set — well below the claimed
256-pair capacity — fails. -/
theorem object_capacity_cex :
    (setMany vela_object_create ((List.range 128).map (fun i => (i, (0 : Int))))).2
      = true ∧
    (vela_object_set
      (setMany vela_object_create ((List.range 128).map (fun i => (i, (0 : Int))))).1
      128 0).2 = false := by
  have hnd : (((List.range 128).map (fun i => (i, (0 : Int)))).map Prod.fst).Nodup := by
    simp only [List.map_map]
    have : (Prod.fst ∘ fun i : Nat => (i, (0 : Int))) = id := rfl
    rw [this, List.map_id]
    exact List.nodup_range 128
  have hlen : ((List.range 128).map (fun i => (i, (0 : Int)))).length ≤ OBJ_PAIR_CAPACITY := by
    simp [OBJ_PAIR_CAPACITY, OBJ_ENTRY_SLOTS]
  have hgo : setMany vela_object_create ((List.range 128).map (fun i => (i, (0 : Int)))) =
      (⟨((List.range 128).map (fun i => (i, (0 : Int)))).map some ++
        List.replicate
          (OBJ_PAIR_CAPACITY - ((List.range 128).map (fun i => (i, (0 : Int)))).length)
          none⟩, true) := by
    simpa using
      setMany_go ((List.range 128).map (fun i => (i, (0 : Int)))) [] OBJ_PAIR_CAPACITY
        (by simp) hnd hlen
  have hfresh : (128 : Nat) ∉ ((List.range 128).map (fun i => (i, (0 : Int)))).map Prod.fst := by
    simp only [List.map_map]
    have : (Prod.fst ∘ fun i : Nat => (i, (0 : Int))) = id := rfl
    rw [this, List.map_id]
    simp [List.mem_range]
  have hpad : OBJ_PAIR_CAPACITY - ((List.range 128).map (fun i => (i, (0 : Int)))).length
      = 0 := by
    simp [OBJ_PAIR_CAPACITY, OBJ_ENTRY_SLOTS]
  refine ⟨by rw [hgo], ?_⟩
  rw [hgo]
  dsimp only
  unfold vela_object_set
  rw [hpad]
  have hnil : ((List.range 128).map (fun i => (i, (0 : Int)))).map some ++
      List.replicate 0 none = ((List.range 128).map (fun i => (i, (0 : Int)))).map some := by
    simp
  rw [hnil, setPairs_exhausted _ _ _ hfresh]

end Vela
